import Mathlib

set_option maxHeartbeats 1000000
set_option maxRecDepth 100000

/-!
Shallow embedding of `src/python/api/utils.py` (SEO audit status aggregation).

Conventions of the embedding:

* Python exceptions become `Except` / `Option` results; a remote HTTP call is an
  oracle parameter (`String → Option TaskMeta` for the task-definition endpoint,
  `Option (List RawRun)` for the child-run listing, `Except String TaskRun` for
  the root-run fetch), where `none` / `.error` stands for any failure
  (network error, non-2xx after `raise_for_status`, timeout, parse error).
* JSON fields read with `dict.get` become `Option` fields; a JSON `null` value
  for `slug` would make `"/" in None` raise inside the `try` block, which is the
  failure case already covered by the oracle returning `none`, so `Option`
  fields here mean "absent or the normal string shape".
* The module-level `_task_name_cache = TTLCache(maxsize=1000, ttl=3600)` from
  the external `cachetools` library is modelled from that library's documented
  semantics (an LRU cache with per-item time-to-live): the state is a list of
  (key, value, expires) triples in least-recently-used-first order; `__contains__`
  checks liveness without touching the order; `__getitem__` moves a live hit to
  the most-recently-used end; `__setitem__` first removes expired items, then,
  for a new key, pops least-recently-used items while the cache is full, and
  finally (re-)links the key at the most-recently-used end with expiry
  `now + ttl`.  A Python dict cannot hold a key twice, so states with duplicate
  keys are unreachable; operations resolve them by first (least recent) match.
* Time is an explicit `Nat` parameter `t`; one aggregation request is modelled
  as happening at a single instant (its wall-clock extent is negligible against
  the 3600-unit TTL).
* Python `set` iteration order is unspecified; the pre-fetch loop is modelled
  over the first-occurrence deduplication of the task ids, which realises one
  admissible order.
* Each remote task-definition lookup that is actually issued is recorded in a
  `fetched` log so that "number of remote lookups" is observable.
-/

/-- JSON metadata of a task definition as used by `get_task_name`:
the `data.get("name")` and `data.get("slug")` fields. -/
structure TaskMeta where
  name : Option String
  slug : Option String
deriving Repr, DecidableEq

/-- Python `"/" in s` on a string. -/
def containsSlash (s : String) : Bool :=
  s.data.any (fun ch => ch == '/')

/-- Python `s.split("/")[-1]`: the characters after the last `'/'`
(the whole string when there is no `'/'`). -/
def lastPathSegment (s : String) : String :=
  String.mk ((s.data.reverse.takeWhile (fun ch => !(ch == '/'))).reverse)

/-- The name computation inside the `try` block of `get_task_name`
(utils.py lines 68-70):
`task_name = data.get("name") or task_def_id` followed by
`if not data.get("name") and "/" in data.get("slug", ""): task_name = data.get("slug", "").split("/")[-1]`. -/
def resolveTaskName (task_def_id : String) (data : TaskMeta) : String :=
  let nameField := data.name.getD ""
  let slugField := data.slug.getD ""
  let task_name := if nameField == "" then task_def_id else nameField
  if nameField == "" && containsSlash slugField then
    lastPathSegment slugField
  else
    task_name

/-- The name fallback chain exactly as the specification words it
("`name` field if present, else the last path segment of a `slug` field,
else the identifier itself").  Used only to compare the spec's wording
against `resolveTaskName`. -/
def specNameChain (task_def_id : String) (data : TaskMeta) : String :=
  match data.name with
  | some n => n
  | none =>
    match data.slug with
    | some s => lastPathSegment s
    | none => task_def_id

/-- A string begins with the given prefix string. -/
def stringBeginsWith (pre s : String) : Prop := ∃ r : String, s = pre ++ r

/-- Exception values reaching `to_sdk_error_response`: `ClientError`
(the spec's ClientInputError), a `RenderError` that is not a `ClientError`
(the spec's RemoteServiceError), or any other exception.  The message is
`str(error)`. -/
inductive PyException where
  | clientError (msg : String)
  | renderError (msg : String)
  | other (msg : String)
deriving Repr, DecidableEq

/-- `to_sdk_error_response` (utils.py lines 46-52). -/
def to_sdk_error_response (error : PyException) : Nat × String :=
  match error with
  | .clientError m => (400, "Client error: " ++ m)
  | .renderError m => (500, "Render API error: " ++ m)
  | .other m => (500, m)

/-- Model of the `cachetools.TTLCache` state: `entries` holds
(key, value, expires) triples in least-recently-used-first order. -/
structure TTLCache where
  maxsize : Nat
  ttl : Nat
  entries : List (String × String × Nat)
deriving Repr, DecidableEq

/-- The entries that have not expired at time `t` (`expire` keeps exactly
the items with `time < expires`). -/
def TTLCache.liveList (c : TTLCache) (t : Nat) : List (String × String × Nat) :=
  c.entries.filter (fun e => decide (t < e.2.2))

/-- The live entry for key `k` at time `t`, if any. -/
def TTLCache.lookupLive (c : TTLCache) (t : Nat) (k : String) : Option (String × String × Nat) :=
  (c.liveList t).find? (fun e => e.1 == k)

/-- `key in cache`: present and not expired; does not touch the LRU order. -/
def TTLCache.containsKey (c : TTLCache) (t : Nat) (k : String) : Bool :=
  (c.lookupLive t k).isSome

/-- `cache[key]`: on a live hit returns the value and moves the entry to the
most-recently-used end; otherwise raises KeyError, modelled as `none` with the
state unchanged (the LRU touch of an expired link has no observable effect:
membership and values are untouched and `expire` runs before any eviction). -/
def TTLCache.getItem (c : TTLCache) (t : Nat) (k : String) : Option String × TTLCache :=
  match c.lookupLive t k with
  | some e => (some e.2.1, ⟨c.maxsize, c.ttl, c.entries.filter (fun x => !(x.1 == k)) ++ [e]⟩)
  | none => (none, c)

/-- `cache.get(key, default)` as used in the summary-building loop, modelled as
a pure read (its LRU touch on a hit changes neither membership nor values). -/
def TTLCache.getD (c : TTLCache) (t : Nat) (k d : String) : String :=
  match c.lookupLive t k with
  | some e => e.2.1
  | none => d

/-- Eviction loop of `Cache.__setitem__` for a new key: pop the
least-recently-used item while the cache is full. -/
def TTLCache.evictLRU (m : Nat) (l : List (String × String × Nat)) : List (String × String × Nat) :=
  l.drop (l.length + 1 - m)

/-- `cache[key] = value` at time `t`: expire dead items, evict
least-recently-used items if a new key would exceed `maxsize`, then link the
key at the most-recently-used end with expiry `t + ttl`. -/
def TTLCache.insert (c : TTLCache) (t : Nat) (k v : String) : TTLCache :=
  let live := c.liveList t
  let es :=
    if live.any (fun e => e.1 == k) then
      live.filter (fun e => !(e.1 == k))
    else
      TTLCache.evictLRU c.maxsize live
  ⟨c.maxsize, c.ttl, es ++ [(k, v, t + c.ttl)]⟩

/-- The module-level `_task_name_cache = TTLCache(maxsize=1000, ttl=3600)`
at process start. -/
def task_name_cache_init : TTLCache := ⟨1000, 3600, []⟩

/-- Result of one `get_task_name` call: the returned name, the cache state
afterwards, and the task-definition ids for which a remote request was issued
(empty or a singleton). -/
structure NameResult where
  name : String
  cache : TTLCache
  fetched : List String
deriving Repr, DecidableEq

/-- `get_task_name` (utils.py lines 55-76): return a live cached name, else
issue the remote metadata request; on success compute the name, store it and
return it; on any failure return the raw id without touching the cache. -/
def get_task_name (oracle : String → Option TaskMeta) (t : Nat) (cache : TTLCache)
    (task_def_id : String) : NameResult :=
  match cache.getItem t task_def_id with
  | (some v, c2) => ⟨v, c2, []⟩
  | (none, _) =>
    match oracle task_def_id with
    | some data =>
      let task_name := resolveTaskName task_def_id data
      ⟨task_name, cache.insert t task_def_id task_name, [task_def_id]⟩
    | none => ⟨task_def_id, cache, [task_def_id]⟩

/-- One raw run record `st` in the JSON array returned by the
`GET /task-runs` listing, with the fields the code reads via `st.get`. -/
structure RawRun where
  id : Option String
  status : Option String
  taskId : Option String
  startedAt : Option String
  completedAt : Option String
  input : List String
deriving Repr, DecidableEq

/-- One entry of the `related_tasks` list built by `fetch_spawned_tasks`
(utils.py lines 121-128). -/
structure ChildTaskSummary where
  id : Option String
  status : Option String
  task_id : String
  startedAt : Option String
  completedAt : Option String
  input : Option String
deriving Repr, DecidableEq

/-- The dictionary appended for one child record `st` (utils.py lines 117-128):
`task_def_id = st.get("taskId", "")`, `task_name = _task_name_cache.get(task_def_id, task_def_id)`,
`inputs = st.get("input", [])`, `"input": inputs[0] if inputs else None`. -/
def summarize (cache : TTLCache) (t : Nat) (st : RawRun) : ChildTaskSummary :=
  let task_def_id := st.taskId.getD ""
  { id := st.id
    status := st.status
    task_id := cache.getD t task_def_id task_def_id
    startedAt := st.startedAt
    completedAt := st.completedAt
    input := st.input.head? }

/-- The `for st in data` loop with `continue` on `st.get("id") == task_run_id`
(utils.py lines 112-128). -/
def buildRelated (cache : TTLCache) (t : Nat) (task_run_id : String) : List RawRun → List ChildTaskSummary
  | [] => []
  | st :: rest =>
    if st.id == some task_run_id then buildRelated cache t task_run_id rest
    else summarize cache t st :: buildRelated cache t task_run_id rest

/-- First-occurrence deduplication, worker: skip elements already seen. -/
def dedupFirstAux (seen : List String) : List String → List String
  | [] => []
  | x :: xs =>
    if seen.contains x then dedupFirstAux seen xs
    else x :: dedupFirstAux (x :: seen) xs

/-- First-occurrence deduplication, the order in which the modelled pre-fetch
loop visits the members of the Python `set` (set iteration order is
unspecified; this realises one admissible order). -/
def dedupFirst (l : List String) : List String :=
  dedupFirstAux [] l

/-- `unique_task_ids` (utils.py lines 103-106): the distinct `taskId` values of
the records whose id differs from the root and whose `taskId` is truthy. -/
def unique_task_ids (data : List RawRun) (task_run_id : String) : List String :=
  dedupFirst (data.filterMap (fun st =>
    if st.id == some task_run_id then none
    else match st.taskId with
      | some tid => if tid == "" then none else some tid
      | none => none))

/-- The pre-fetch loop (utils.py lines 108-110):
`for tid in unique_task_ids: if tid not in _task_name_cache: await get_task_name(...)`.
Returns the final cache and the concatenated remote-fetch log. -/
def prefetchNames (oracle : String → Option TaskMeta) (t : Nat) :
    List String → TTLCache → TTLCache × List String
  | [], cache => (cache, [])
  | tid :: rest, cache =>
    if cache.containsKey t tid then prefetchNames oracle t rest cache
    else
      let r := get_task_name oracle t cache tid
      let (c2, log) := prefetchNames oracle t rest r.cache
      (c2, r.fetched ++ log)

/-- Result of `fetch_spawned_tasks`: the returned list, the cache state
afterwards, and the remote task-definition fetch log. -/
structure SpawnedResult where
  tasks : List ChildTaskSummary
  cache : TTLCache
  fetched : List String
deriving Repr, DecidableEq

/-- `fetch_spawned_tasks` (utils.py lines 79-138).  `api_key` models
`os.environ.get("RENDER_API_KEY")`; `listRuns` models the outcome of the
`GET /task-runs` request (`none` for any `httpx.HTTPStatusError` or other
exception, both of which return `[]`). -/
def fetch_spawned_tasks (oracle : String → Option TaskMeta) (t : Nat)
    (api_key : Option String) (listRuns : Option (List RawRun))
    (cache : TTLCache) (task_run_id : String) : SpawnedResult :=
  match api_key with
  | none => ⟨[], cache, []⟩
  | some key =>
    if key == "" then ⟨[], cache, []⟩
    else
      match listRuns with
      | none => ⟨[], cache, []⟩
      | some data =>
        let pr := prefetchNames oracle t (unique_task_ids data task_run_id) cache
        ⟨buildRelated pr.1 t task_run_id data, pr.1, pr.2⟩

/-- The root task-run object returned by `client.workflows.get_task_run`:
the attributes `fetch_task_status` reads. -/
structure TaskRun where
  id : String
  status : String
  retries : Nat
  results : String
deriving Repr, DecidableEq

/-- The `response` dictionary assembled by `fetch_task_status`; `results` is
`some _` exactly when the key is present. -/
structure AuditReport where
  id : String
  status : String
  retries : Nat
  tasks : List ChildTaskSummary
  results : Option String
deriving Repr, DecidableEq

/-- `fetch_task_status` (utils.py lines 141-156).  `getRun` models the outcome
of `client.workflows.get_task_run(task_run_id)`; an `.error` there propagates
(there is no `try` around it), carrying the exception unchanged. -/
def fetch_task_status (oracle : String → Option TaskMeta) (t : Nat)
    (api_key : Option String) (listRuns : Option (List RawRun))
    (cache : TTLCache) (getRun : Except String TaskRun) (task_run_id : String) :
    Except String (AuditReport × TTLCache × List String) :=
  match getRun with
  | .error e => .error e
  | .ok task_run =>
    let sp := fetch_spawned_tasks oracle t api_key listRuns cache task_run_id
    .ok ({ id := task_run.id
           status := task_run.status
           retries := task_run.retries
           tasks := sp.tasks
           results := if task_run.status == "completed" then some task_run.results else none },
         sp.cache, sp.fetched)

/-- The name a child entry with task id `tid` should end up displaying after
the aggregation: the live cached value if there is one, else what a successful
remote lookup resolves to, else (on lookup failure) the raw identifier. -/
def expectedName (cache : TTLCache) (t : Nat) (oracle : String → Option TaskMeta)
    (tid : String) : String :=
  match cache.lookupLive t tid with
  | some e => e.2.1
  | none =>
    match oracle tid with
    | some meta => resolveTaskName tid meta
    | none => tid

/-- One operation on `_task_name_cache` as issued by this code base: a
`get_task_name` call (with the outcome its remote lookup would have), or a
bare store `cache[k] = v` (the assignment on utils.py line 71). -/
inductive CacheOp where
  | resolve (t : Nat) (tid : String) (meta : Option TaskMeta)
  | store (t : Nat) (k v : String)
deriving Repr, DecidableEq

/-- Apply one cache operation. -/
def applyCacheOp (c : TTLCache) : CacheOp → TTLCache
  | .resolve t tid meta => (get_task_name (fun _ => meta) t c tid).cache
  | .store t k v => c.insert t k v

/-- Run a sequence of cache operations from the process-start cache. -/
def runCacheOps (ops : List CacheOp) : TTLCache :=
  ops.foldl applyCacheOp task_name_cache_init

/-- A cache filled to its 1000-entry capacity (keys "0" ... "999", all live at
time 0, least recently used first). -/
def cacheBig : TTLCache :=
  ⟨1000, 3600, (List.range 1000).map (fun i => (toString i, "n", 3600))⟩

/-- Two child runs of root "root": one referencing the never-seen task id "x",
one referencing task id "0" which is live in `cacheBig`. -/
def dataCE : List RawRun :=
  [⟨some "c1", some "running", some "x", none, none, []⟩,
   ⟨some "c2", some "running", some "0", none, none, []⟩]

/-- A remote metadata endpoint that always succeeds with name "N". -/
def oracleCE : String → Option TaskMeta := fun _ => some ⟨some "N", none⟩

/-! ## Helper lemmas -/

/-- A key absent (dead or missing) at time `t` is still absent at any later
time: entries do not resurrect. -/
theorem containsKey_false_mono (c : TTLCache) (t t2 : Nat) (k : String)
    (hle : t ≤ t2) (h : c.containsKey t k = false) : c.containsKey t2 k = false := by
  unfold TTLCache.containsKey TTLCache.lookupLive TTLCache.liveList at h ⊢
  simp only [Bool.eq_false_iff, Ne, List.find?_isSome] at h ⊢
  rintro ⟨e, he, hk⟩
  rcases List.mem_filter.mp he with ⟨hmem, hlive⟩
  have h2 : t < e.2.2 := lt_of_le_of_lt hle (by simpa using hlive)
  exact h ⟨e, List.mem_filter.mpr ⟨hmem, by simpa using h2⟩, hk⟩

/-- An absent key has a missing live lookup. -/
theorem lookup_none_of_contains_false (c : TTLCache) (t : Nat) (k : String)
    (h : c.containsKey t k = false) : c.lookupLive t k = none := by
  unfold TTLCache.containsKey at h
  cases hl : c.lookupLive t k with
  | none => rfl
  | some e => rw [hl] at h; simp at h

/-- `get_task_name` on a cache miss whose remote lookup fails returns the raw
identifier, leaves the cache unchanged and logs one remote fetch. -/
theorem get_task_name_miss_fail (oracle : String → Option TaskMeta) (t : Nat)
    (c : TTLCache) (tid : String)
    (hc : c.containsKey t tid = false) (ho : oracle tid = none) :
    get_task_name oracle t c tid = ⟨tid, c, [tid]⟩ := by
  have hn := lookup_none_of_contains_false c t tid hc
  simp [get_task_name, TTLCache.getItem, hn, ho]

/-- `get_task_name` on a cache miss whose remote lookup succeeds resolves the
name, stores it and logs one remote fetch. -/
theorem get_task_name_miss_ok (oracle : String → Option TaskMeta) (t : Nat)
    (c : TTLCache) (tid : String) (meta : TaskMeta)
    (hc : c.containsKey t tid = false) (ho : oracle tid = some meta) :
    get_task_name oracle t c tid =
      ⟨resolveTaskName tid meta, c.insert t tid (resolveTaskName tid meta), [tid]⟩ := by
  have hn := lookup_none_of_contains_false c t tid hc
  simp [get_task_name, TTLCache.getItem, hn, ho]

/-- `buildRelated` is the filter of the raw list by "id differs from the root"
followed by the per-entry summary map, in the original order. -/
theorem buildRelated_eq_filter_map (cache : TTLCache) (t : Nat) (root : String)
    (data : List RawRun) :
    buildRelated cache t root data =
      (data.filter (fun st => !(st.id == some root))).map (summarize cache t) := by
  induction data with
  | nil => rfl
  | cons st rest ih =>
    unfold buildRelated
    cases h : (st.id == some root) <;> simp [h, ih, List.filter_cons]

/-! ## Claim C1 -/

/-- Claim C1: a failure of the root-run fetch propagates to the caller
unchanged, with the same outcome whatever the child-list environment holds
(the child list is not consulted), whereas a failure of the child-run-list
fetch is swallowed: the aggregation returns a report carrying the root run's
id, status and retries with an empty children list, raising no error. -/
theorem C1_root_fetch_propagates_child_fetch_swallowed
    (oracle : String → Option TaskMeta) (t : Nat) (api_key : Option String)
    (listRuns : Option (List RawRun)) (cache : TTLCache) (task_run_id : String) :
    (∀ e, fetch_task_status oracle t api_key listRuns cache (.error e) task_run_id = .error e) ∧
    (∀ run, fetch_task_status oracle t api_key none cache (.ok run) task_run_id =
      .ok ({ id := run.id
             status := run.status
             retries := run.retries
             tasks := []
             results := if run.status == "completed" then some run.results else none },
           cache, [])) := by
  constructor
  · intro e; rfl
  · intro run
    cases api_key with
    | none => rfl
    | some key =>
      simp only [fetch_task_status, fetch_spawned_tasks]
      cases hk : (key == "") <;> simp [hk]

/-! ## Claim C2 -/

/-- Claim C2 counterexample: a RemoteServiceError (a `RenderError` that is not
a `ClientError`) with message "x" maps to `(500, "Render API error: x")`; the
resulting message does not begin with "Remote service error: " as the claim
states. -/
theorem C2_counterexample :
    to_sdk_error_response (.renderError "x") = (500, "Render API error: x") ∧
    ¬ stringBeginsWith "Remote service error: " "Render API error: x" := by
  refine ⟨rfl, ?_⟩
  rintro ⟨r, h⟩
  have h2 := congrArg String.length h
  rw [String.length_append] at h2
  have e1 : ("Render API error: x").length = 19 := rfl
  have e2 : ("Remote service error: ").length = 22 := rfl
  rw [e1, e2] at h2
  omega

/-- Claim C2 (amended): the error mapper is a total function assigning every
exception exactly one outcome: a ClientInputError maps to a 4xx-class status
with a message beginning "Client error: ", a RemoteServiceError maps to a
5xx-class status with a message beginning "Render API error: ", and any other
exception maps to a 5xx-class status with the raw message. -/
theorem C2_amended_error_mapper_total (e : PyException) :
    match e with
    | .clientError m =>
        to_sdk_error_response e = (400, "Client error: " ++ m) ∧
        400 ≤ (to_sdk_error_response e).1 ∧ (to_sdk_error_response e).1 < 500 ∧
        stringBeginsWith "Client error: " (to_sdk_error_response e).2
    | .renderError m =>
        to_sdk_error_response e = (500, "Render API error: " ++ m) ∧
        500 ≤ (to_sdk_error_response e).1 ∧ (to_sdk_error_response e).1 < 600 ∧
        stringBeginsWith "Render API error: " (to_sdk_error_response e).2
    | .other m =>
        to_sdk_error_response e = (500, m) ∧
        500 ≤ (to_sdk_error_response e).1 ∧ (to_sdk_error_response e).1 < 600 := by
  cases e with
  | clientError m =>
    exact ⟨rfl, by norm_num [to_sdk_error_response], by norm_num [to_sdk_error_response], ⟨m, rfl⟩⟩
  | renderError m =>
    exact ⟨rfl, by norm_num [to_sdk_error_response], by norm_num [to_sdk_error_response], ⟨m, rfl⟩⟩
  | other m =>
    exact ⟨rfl, by norm_num [to_sdk_error_response], by norm_num [to_sdk_error_response]⟩

/-! ## Claim C3 -/

/-- Claim C3 counterexample: for metadata `{slug: "bar"}` (no name, slug
without a slash) and identifier "tid", `get_task_name` resolves to the
identifier "tid", while the claimed fallback chain ("otherwise the last path
segment of the slug field") gives "bar". -/
theorem C3_counterexample :
    (get_task_name (fun _ => some ⟨none, some "bar"⟩) 0 task_name_cache_init "tid").name = "tid" ∧
    specNameChain "tid" ⟨none, some "bar"⟩ = "bar" ∧
    ("tid" : String) ≠ "bar" :=
  ⟨by decide, by decide, by decide⟩

/-- Claim C3 (amended): name resolution computes the display name by the
deterministic chain: the `name` field if present and non-empty; otherwise, if
the `slug` field contains a "/", the last path segment of the slug; otherwise
the identifier itself.  In particular {name: "Foo"} resolves to "Foo",
{slug: "org/bar-baz"} with no name resolves to "bar-baz", and {} resolves to
the identifier string. -/
theorem C3_amended_name_fallback_chain :
    (∀ (tid : String) (m : TaskMeta) (n : String), m.name = some n → n ≠ "" →
      resolveTaskName tid m = n) ∧
    (∀ (tid : String) (m : TaskMeta), m.name.getD "" = "" →
      containsSlash (m.slug.getD "") = true →
      resolveTaskName tid m = lastPathSegment (m.slug.getD "")) ∧
    (∀ (tid : String) (m : TaskMeta), m.name.getD "" = "" →
      containsSlash (m.slug.getD "") = false →
      resolveTaskName tid m = tid) ∧
    (get_task_name (fun _ => some ⟨some "Foo", none⟩) 0 task_name_cache_init "i").name = "Foo" ∧
    (get_task_name (fun _ => some ⟨none, some "org/bar-baz"⟩) 0 task_name_cache_init "i").name = "bar-baz" ∧
    (get_task_name (fun _ => some ⟨none, none⟩) 0 task_name_cache_init "i").name = "i" := by
  refine ⟨?_, ?_, ?_, by decide, by decide, by decide⟩
  · intro tid m n hn hne
    simp [resolveTaskName, hn, hne]
  · intro tid m h1 h2
    simp [resolveTaskName, h1, h2]
  · intro tid m h1 h2
    simp [resolveTaskName, h1, h2]

/-- Claim C3 amended witness. -/
theorem C3_amended_name_fallback_chain_witness :
    resolveTaskName "i" ⟨some "Foo", none⟩ = "Foo" ∧
    resolveTaskName "i" ⟨none, some "a/b"⟩ = lastPathSegment "a/b" ∧
    resolveTaskName "i" ⟨none, some "bar"⟩ = "i" :=
  ⟨C3_amended_name_fallback_chain.1 "i" ⟨some "Foo", none⟩ "Foo" rfl (by decide),
   C3_amended_name_fallback_chain.2.1 "i" ⟨none, some "a/b"⟩ rfl (by decide),
   C3_amended_name_fallback_chain.2.2.1 "i" ⟨none, some "bar"⟩ rfl (by decide)⟩

/-! ## Claim C5 -/

/-- Claim C5: the child list returned by `fetch_spawned_tasks` equals the raw
list from the platform with every entry whose id equals the root run id
removed, in the same order, each remaining entry mapped to the summary
{id, status, resolved task name, startedAt, completedAt, first input or none}
(the name resolved through the now-warm cache). -/
theorem C5_child_list_is_filter_map (oracle : String → Option TaskMeta) (t : Nat)
    (key : String) (data : List RawRun) (cache : TTLCache) (root : String)
    (hk : key ≠ "") :
    (fetch_spawned_tasks oracle t (some key) (some data) cache root).tasks =
      (data.filter (fun st => !(st.id == some root))).map (fun st =>
        { id := st.id
          status := st.status
          task_id := (fetch_spawned_tasks oracle t (some key) (some data) cache root).cache.getD
              t (st.taskId.getD "") (st.taskId.getD "")
          startedAt := st.startedAt
          completedAt := st.completedAt
          input := st.input.head? }) := by
  have hkb : (key == "") = false := by simpa using hk
  simp only [fetch_spawned_tasks, hkb, Bool.false_eq_true, if_false]
  rw [buildRelated_eq_filter_map]
  apply List.map_congr_left
  intro st _
  rfl

/-- Claim C5 witness. -/
theorem C5_child_list_is_filter_map_witness :
    ("key" : String) ≠ "" ∧
    (fetch_spawned_tasks oracleCE 0 (some "key") (some dataCE) task_name_cache_init "c1").tasks =
      (dataCE.filter (fun st => !(st.id == some "c1"))).map (fun st =>
        { id := st.id
          status := st.status
          task_id := (fetch_spawned_tasks oracleCE 0 (some "key") (some dataCE) task_name_cache_init "c1").cache.getD
              0 (st.taskId.getD "") (st.taskId.getD "")
          startedAt := st.startedAt
          completedAt := st.completedAt
          input := st.input.head? }) :=
  ⟨by decide, C5_child_list_is_filter_map oracleCE 0 "key" dataCE task_name_cache_init "c1" (by decide)⟩

/-! ## Claim C6 -/

/-- Claim C6: when the root-run fetch succeeds, the report contains a
`results` field if and only if the root run's status is exactly "completed". -/
theorem C6_results_iff_completed (oracle : String → Option TaskMeta) (t : Nat)
    (api_key : Option String) (listRuns : Option (List RawRun)) (cache : TTLCache)
    (run : TaskRun) (task_run_id : String)
    (out : AuditReport × TTLCache × List String)
    (h : fetch_task_status oracle t api_key listRuns cache (.ok run) task_run_id = .ok out) :
    out.1.results.isSome = true ↔ run.status = "completed" := by
  unfold fetch_task_status at h
  have h2 := Except.ok.inj h
  subst h2
  cases hs : (run.status == "completed") with
  | true =>
    have heq : run.status = "completed" := by simpa using hs
    simp [hs, heq]
  | false =>
    have hne : ¬ run.status = "completed" := by simpa using hs
    simp [hs, hne]

/-- Claim C6 witness: a completed root run yields a report with a `results`
field present. -/
theorem C6_results_iff_completed_witness :
    fetch_task_status (fun _ => none) 0 none none task_name_cache_init
        (.ok ⟨"r", "completed", 2, "payload"⟩) "r" =
      .ok (⟨"r", "completed", 2, [], some "payload"⟩, task_name_cache_init, []) ∧
    ((⟨"r", "completed", 2, [], some "payload"⟩ : AuditReport).results.isSome = true ↔
      ("completed" : String) = "completed") :=
  ⟨rfl,
   C6_results_iff_completed (fun _ => none) 0 none none task_name_cache_init
     ⟨"r", "completed", 2, "payload"⟩ "r"
     (⟨"r", "completed", 2, [], some "payload"⟩, task_name_cache_init, []) rfl⟩

/-! ## Claim C8 -/

/-- Claim C8: when the identifier is not live in the cache and the remote
metadata fetch fails (for any reason), `get_task_name` does not raise: it
returns the raw identifier as the degraded name, and the enclosing status
request still succeeds. -/
theorem C8_resolution_failure_degrades (oracle : String → Option TaskMeta)
    (t : Nat) (cache : TTLCache) (tid : String)
    (hmiss : cache.containsKey t tid = false) (hfail : oracle tid = none) :
    get_task_name oracle t cache tid = ⟨tid, cache, [tid]⟩ ∧
    (∀ (api_key : Option String) (listRuns : Option (List RawRun)) (run : TaskRun)
        (task_run_id : String), ∃ out,
      fetch_task_status oracle t api_key listRuns cache (.ok run) task_run_id = .ok out) := by
  constructor
  · exact get_task_name_miss_fail oracle t cache tid hmiss hfail
  · intro api_key listRuns run task_run_id
    exact ⟨_, rfl⟩

/-- Claim C8 witness. -/
theorem C8_resolution_failure_degrades_witness :
    task_name_cache_init.containsKey 0 "x" = false ∧
    get_task_name (fun _ => none) 0 task_name_cache_init "x" =
      ⟨"x", task_name_cache_init, ["x"]⟩ :=
  ⟨by decide,
   (C8_resolution_failure_degrades (fun _ => none) 0 task_name_cache_init "x"
     (by decide) rfl).1⟩

/-! ## Claim C9 -/

/-- Claim C9: when the remote metadata fetch fails, `get_task_name` leaves the
cache unchanged (the fallback name is not stored), so any later resolve of the
same identifier issues a new remote lookup instead of serving the degraded
name from the cache. -/
theorem C9_failure_leaves_cache_unchanged (oracle : String → Option TaskMeta)
    (t : Nat) (cache : TTLCache) (tid : String)
    (hmiss : cache.containsKey t tid = false) (hfail : oracle tid = none) :
    (get_task_name oracle t cache tid).cache = cache ∧
    (get_task_name oracle t cache tid).name = tid ∧
    (∀ (oracle2 : String → Option TaskMeta) (t2 : Nat), t ≤ t2 →
      (get_task_name oracle2 t2 (get_task_name oracle t cache tid).cache tid).fetched = [tid]) := by
  have hfix : get_task_name oracle t cache tid = ⟨tid, cache, [tid]⟩ :=
    get_task_name_miss_fail oracle t cache tid hmiss hfail
  refine ⟨by rw [hfix], by rw [hfix], ?_⟩
  intro oracle2 t2 hle
  rw [hfix]
  have hmiss2 : cache.containsKey t2 tid = false := containsKey_false_mono cache t t2 tid hle hmiss
  unfold TTLCache.containsKey at hmiss2
  unfold get_task_name TTLCache.getItem
  cases hl : cache.lookupLive t2 tid with
  | none => cases oracle2 tid <;> simp
  | some e => rw [hl] at hmiss2; simp at hmiss2

/-- Claim C9 witness. -/
theorem C9_failure_leaves_cache_unchanged_witness :
    task_name_cache_init.containsKey 0 "y" = false ∧
    (get_task_name (fun _ => none) 0 task_name_cache_init "y").cache = task_name_cache_init ∧
    (0 : Nat) ≤ 5 ∧
    (get_task_name oracleCE 5 (get_task_name (fun _ => none) 0 task_name_cache_init "y").cache "y").fetched = ["y"] :=
  ⟨by decide,
   (C9_failure_leaves_cache_unchanged (fun _ => none) 0 task_name_cache_init "y" (by decide) rfl).1,
   by decide,
   (C9_failure_leaves_cache_unchanged (fun _ => none) 0 task_name_cache_init "y" (by decide) rfl).2.2
     oracleCE 5 (by decide)⟩

/-! ## Claim C10 -/

/-- Claim C10: with the API key unset, `fetch_spawned_tasks` returns the empty
list, leaves the cache untouched and issues no remote call (the outcome does
not depend on the listing or metadata environments), so every report then
carries an empty children list regardless of how many child runs exist. -/
theorem C10_no_api_key_empty_children (oracle : String → Option TaskMeta) (t : Nat)
    (listRuns : Option (List RawRun)) (cache : TTLCache) (task_run_id : String) :
    fetch_spawned_tasks oracle t none listRuns cache task_run_id = ⟨[], cache, []⟩ ∧
    (∀ run, fetch_task_status oracle t none listRuns cache (.ok run) task_run_id =
      .ok ({ id := run.id
             status := run.status
             retries := run.retries
             tasks := []
             results := if run.status == "completed" then some run.results else none },
           cache, [])) :=
  ⟨rfl, fun _ => rfl⟩

/-! ## Cache skeleton lemmas (towards Claims C7 and C4) -/

/-- Removing the entries of a present key strictly shrinks the list. -/
theorem length_filter_not_key_lt {l : List (String × String × Nat)} {k : String}
    (h : l.any (fun e => e.1 == k) = true) :
    (l.filter (fun e => !(e.1 == k))).length < l.length := by
  induction l with
  | nil => simp at h
  | cons e rest ih =>
    rw [List.filter_cons]
    cases he : (e.1 == k) with
    | true =>
      simp only [he, Bool.not_true, Bool.false_eq_true, if_false, List.length_cons]
      exact Nat.lt_succ_of_le (List.length_filter_le _ _)
    | false =>
      rw [List.any_cons, he, Bool.false_or] at h
      simp only [he, Bool.not_false, if_true, List.length_cons]
      exact Nat.succ_lt_succ (ih h)

/-- An insert never pushes the entry count above `maxsize` (when it held
before): a new key evicts down to `maxsize - 1` first, an existing key is
removed before being re-linked. -/
theorem insert_length_le (c : TTLCache) (t : Nat) (k v : String)
    (h1 : 1 ≤ c.maxsize) (h2 : c.entries.length ≤ c.maxsize) :
    (c.insert t k v).entries.length ≤ c.maxsize := by
  have hlive : (c.liveList t).length ≤ c.entries.length := List.length_filter_le _ _
  unfold TTLCache.insert
  simp only [List.length_append, List.length_cons, List.length_nil]
  split
  · next hany =>
    have := length_filter_not_key_lt hany
    omega
  · unfold TTLCache.evictLRU
    rw [List.length_drop]
    omega

/-- A `get_task_name` call never pushes the entry count above `maxsize` and
keeps the configuration fields. -/
theorem get_task_name_cache_bound (oracle : String → Option TaskMeta) (t : Nat)
    (c : TTLCache) (tid : String) (h1 : 1 ≤ c.maxsize) (h2 : c.entries.length ≤ c.maxsize) :
    (get_task_name oracle t c tid).cache.maxsize = c.maxsize ∧
    (get_task_name oracle t c tid).cache.ttl = c.ttl ∧
    (get_task_name oracle t c tid).cache.entries.length ≤ c.maxsize := by
  unfold get_task_name TTLCache.getItem
  cases hl : c.lookupLive t tid with
  | some e =>
    refine ⟨rfl, rfl, ?_⟩
    have hk := List.find?_some hl
    have hmem : e ∈ c.liveList t := List.mem_of_find?_eq_some hl
    have hmem2 : e ∈ c.entries := (List.mem_filter.mp hmem).1
    have hany : c.entries.any (fun x => x.1 == tid) = true :=
      List.any_eq_true.mpr ⟨e, hmem2, hk⟩
    have := length_filter_not_key_lt hany
    simp only [List.length_append, List.length_cons, List.length_nil]
    omega
  | none =>
    cases oracle tid with
    | some meta =>
      exact ⟨rfl, rfl, insert_length_le c t tid _ h1 h2⟩
    | none => exact ⟨rfl, rfl, h2⟩

/-- One cache operation preserves the configuration and the size bound. -/
theorem applyCacheOp_bound (c : TTLCache) (op : CacheOp)
    (h1 : 1 ≤ c.maxsize) (h2 : c.entries.length ≤ c.maxsize) :
    (applyCacheOp c op).maxsize = c.maxsize ∧
    (applyCacheOp c op).entries.length ≤ c.maxsize := by
  cases op with
  | resolve t tid meta =>
    have h := get_task_name_cache_bound (fun _ => meta) t c tid h1 h2
    exact ⟨h.1, h.2.2⟩
  | store t k v => exact ⟨rfl, insert_length_le c t k v h1 h2⟩

/-- The size bound holds along any operation sequence. -/
theorem foldl_cacheOps_bound (ops : List CacheOp) :
    ∀ c : TTLCache, 1 ≤ c.maxsize → c.entries.length ≤ c.maxsize →
      (ops.foldl applyCacheOp c).maxsize = c.maxsize ∧
      (ops.foldl applyCacheOp c).entries.length ≤ c.maxsize := by
  induction ops with
  | nil => intro c _ h2; exact ⟨rfl, h2⟩
  | cons op rest ih =>
    intro c h1 h2
    have hstep := applyCacheOp_bound c op h1 h2
    have hrec := ih (applyCacheOp c op) (hstep.1 ▸ h1) (hstep.1 ▸ hstep.2)
    rw [List.foldl_cons]
    exact ⟨hrec.1.trans hstep.1, hstep.1 ▸ hrec.2⟩

/-- After `insert`, the only entry whose key is `k` is the freshly linked one. -/
theorem insert_key_entry_unique (c : TTLCache) (t0 : Nat) (k v : String) :
    ∀ x ∈ (c.insert t0 k v).entries, (x.1 == k) = true → x = (k, v, t0 + c.ttl) := by
  intro x hx hk
  unfold TTLCache.insert at hx
  rcases List.mem_append.mp hx with h | h
  · exfalso
    split at h
    · rcases List.mem_filter.mp h with ⟨_, hne⟩
      rw [hk] at hne
      simp at hne
    · next hany =>
      have hany2 : (c.liveList t0).any (fun e => e.1 == k) = false := by
        cases ha : (c.liveList t0).any (fun e => e.1 == k) with
        | true => exact absurd ha hany
        | false => rfl
      have hmem : x ∈ c.liveList t0 := List.mem_of_mem_drop h
      rcases List.any_eq_false.mp hany2 x hmem with hne
      exact hne hk
  · simpa using h

/-! ## Claim C7 -/

/-- Claim C7: across every sequence of resolve and store operations the cache
holds at most 1000 entries; inserting a new key into a cache whose live
content is exactly at the 1000-entry bound evicts the least-recently-used
(front) live entry; and an entry stored at time `t0` is never returned once
3600 time units have elapsed — its next resolve issues a fresh remote
lookup. -/
theorem C7_cache_invariant :
    (∀ ops : List CacheOp, (runCacheOps ops).entries.length ≤ 1000) ∧
    (∀ (c : TTLCache) (t : Nat) (k v : String),
      c.maxsize = 1000 →
      (c.liveList t).any (fun e => e.1 == k) = false →
      (c.liveList t).length = 1000 →
      (c.insert t k v).entries = (c.liveList t).drop 1 ++ [(k, v, t + c.ttl)]) ∧
    (∀ (c : TTLCache) (t0 t : Nat) (k v : String) (oracle : String → Option TaskMeta),
      c.ttl = 3600 → t0 + 3600 ≤ t →
      (c.insert t0 k v).containsKey t k = false ∧
      (get_task_name oracle t (c.insert t0 k v) k).fetched = [k]) := by
  refine ⟨?_, ?_, ?_⟩
  · intro ops
    have h := foldl_cacheOps_bound ops task_name_cache_init (by decide) (by decide)
    simpa [runCacheOps, task_name_cache_init] using h.2
  · intro c t k v hmax hany hlen
    simp [TTLCache.insert, TTLCache.evictLRU, hany, hlen, hmax]
  · intro c t0 t k v oracle httl hle
    have hnone : (c.insert t0 k v).lookupLive t k = none := by
      unfold TTLCache.lookupLive
      rw [List.find?_eq_none]
      intro x hx
      rcases List.mem_filter.mp hx with ⟨hmem, hlive⟩
      intro hk
      have hx2 := insert_key_entry_unique c t0 k v x hmem hk
      rw [hx2] at hlive
      simp only [httl, decide_eq_true_eq] at hlive
      omega
    constructor
    · unfold TTLCache.containsKey
      rw [hnone]
      rfl
    · unfold get_task_name TTLCache.getItem
      rw [hnone]
      cases oracle k <;> rfl

/-- Claim C7 witness: the bound after one resolve; LRU eviction at capacity on
the concrete 1000-entry cache; expiry of a concrete stored entry at 3600. -/
theorem C7_cache_invariant_witness :
    (runCacheOps [CacheOp.resolve 0 "a" (some ⟨some "A", none⟩)]).entries.length ≤ 1000 ∧
    (cacheBig.maxsize = 1000 ∧
     (cacheBig.liveList 0).any (fun e => e.1 == "x") = false ∧
     (cacheBig.liveList 0).length = 1000 ∧
     (cacheBig.insert 0 "x" "v").entries =
       (cacheBig.liveList 0).drop 1 ++ [("x", "v", 0 + cacheBig.ttl)]) ∧
    (task_name_cache_init.ttl = 3600 ∧ 0 + 3600 ≤ 3600 ∧
     (task_name_cache_init.insert 0 "k" "v").containsKey 3600 "k" = false ∧
     (get_task_name (fun _ => none) 3600 (task_name_cache_init.insert 0 "k" "v") "k").fetched = ["k"]) :=
  ⟨C7_cache_invariant.1 [CacheOp.resolve 0 "a" (some ⟨some "A", none⟩)],
   ⟨rfl, by decide, by decide,
    C7_cache_invariant.2.1 cacheBig 0 "x" "v" rfl (by decide) (by decide)⟩,
   ⟨rfl, by decide,
    (C7_cache_invariant.2.2 task_name_cache_init 0 3600 "k" "v" (fun _ => none) rfl (by decide)).1,
    (C7_cache_invariant.2.2 task_name_cache_init 0 3600 "k" "v" (fun _ => none) rfl (by decide)).2⟩⟩

/-! ## Pre-fetch lemmas (towards Claim C4) -/

/-- Membership in the deduplication worker: in the remaining list and not
already seen. -/
theorem mem_dedupFirstAux : ∀ (l seen : List String) (a : String),
    a ∈ dedupFirstAux seen l ↔ (a ∈ l ∧ a ∉ seen) := by
  intro l
  induction l with
  | nil => intro seen a; simp [dedupFirstAux]
  | cons x xs ih =>
    intro seen a
    unfold dedupFirstAux
    cases hx : seen.contains x with
    | true =>
      have hxs : x ∈ seen := by simpa using hx
      rw [if_pos rfl]
      rw [ih seen a]
      by_cases hax : a = x
      · subst hax
        simp [hxs]
      · simp [hax]
    | false =>
      have hxs : x ∉ seen := by simpa using hx
      rw [if_neg (by simp [hx])]
      by_cases hax : a = x
      · subst hax
        simp [hxs]
      · simp only [List.mem_cons, ih (x :: seen) a, List.mem_cons]
        constructor
        · rintro (h | ⟨h1, h2⟩)
          · exact absurd h hax
          · exact ⟨Or.inr h1, fun hm => h2 (Or.inr hm)⟩
        · rintro ⟨h1 | h1, h2⟩
          · exact absurd h1 hax
          · exact Or.inr ⟨h1, fun hm => by
              rcases hm with hm | hm
              · exact hax hm
              · exact h2 hm⟩

/-- `dedupFirst` membership is membership in the original list. -/
theorem mem_dedupFirst (l : List String) (a : String) : a ∈ dedupFirst l ↔ a ∈ l := by
  unfold dedupFirst
  rw [mem_dedupFirstAux]
  simp

/-- The deduplication worker produces a duplicate-free list. -/
theorem dedupFirstAux_nodup : ∀ (l seen : List String), (dedupFirstAux seen l).Nodup := by
  intro l
  induction l with
  | nil => intro seen; simp [dedupFirstAux]
  | cons x xs ih =>
    intro seen
    unfold dedupFirstAux
    cases hx : seen.contains x with
    | true => rw [if_pos rfl]; exact ih seen
    | false =>
      rw [if_neg (by simp [hx])]
      refine List.nodup_cons.mpr ⟨?_, ih (x :: seen)⟩
      rw [mem_dedupFirstAux]
      rintro ⟨_, h2⟩
      exact h2 (List.mem_cons_self x seen)

/-- `dedupFirst` produces a duplicate-free list. -/
theorem dedupFirst_nodup (l : List String) : (dedupFirst l).Nodup :=
  dedupFirstAux_nodup l []

/-- Expiry filtering is idempotent. -/
theorem liveList_filter_self (c : TTLCache) (t : Nat) :
    (c.liveList t).filter (fun e => decide (t < e.2.2)) = c.liveList t := by
  unfold TTLCache.liveList
  rw [List.filter_filter]
  simp

/-- A key is absent exactly when its live lookup misses. -/
theorem contains_false_iff_lookup_none (c : TTLCache) (t : Nat) (k : String) :
    c.containsKey t k = false ↔ c.lookupLive t k = none := by
  unfold TTLCache.containsKey
  cases c.lookupLive t k <;> simp

/-- An absent key matches no live entry. -/
theorem any_eq_false_of_contains_false (c : TTLCache) (t : Nat) (k : String)
    (h : c.containsKey t k = false) :
    (c.liveList t).any (fun e => e.1 == k) = false := by
  have hn := (contains_false_iff_lookup_none c t k).mp h
  unfold TTLCache.lookupLive at hn
  rw [List.any_eq_false]
  intro x hx
  exact fun hp => by simpa [hp] using List.find?_eq_none.mp hn x hx

/-- A miss reads back the default. -/
theorem getD_of_not_contains (c : TTLCache) (t : Nat) (k d : String)
    (h : c.containsKey t k = false) : c.getD t k d = d := by
  have hn := (contains_false_iff_lookup_none c t k).mp h
  unfold TTLCache.getD
  rw [hn]

/-- When the key is live, the expected display name is the cached value. -/
theorem expectedName_of_contains (c : TTLCache) (t : Nat)
    (oracle : String → Option TaskMeta) (k : String)
    (h : c.containsKey t k = true) :
    expectedName c t oracle k = c.getD t k k := by
  unfold TTLCache.containsKey at h
  unfold expectedName TTLCache.getD
  cases hl : c.lookupLive t k with
  | some e => rfl
  | none => rw [hl] at h; simp at h

/-- Inserting a fresh key below capacity appends a live entry and keeps all
previously live entries. -/
theorem liveList_insert_not_present (c : TTLCache) (t : Nat) (k v : String)
    (httl : 0 < c.ttl)
    (hc : c.containsKey t k = false)
    (hlen : (c.liveList t).length < c.maxsize) :
    (c.insert t k v).liveList t = c.liveList t ++ [(k, v, t + c.ttl)] := by
  have hany := any_eq_false_of_contains_false c t k hc
  have h0 : (c.liveList t).length + 1 - c.maxsize = 0 := by omega
  have key : (c.insert t k v).entries = c.liveList t ++ [(k, v, t + c.ttl)] := by
    simp [TTLCache.insert, TTLCache.evictLRU, hany, h0]
  show (c.insert t k v).entries.filter _ = _
  rw [key, List.filter_append, liveList_filter_self]
  congr 1
  simp only [List.filter_cons, decide_eq_true_eq]
  rw [if_pos (by omega)]
  rfl

/-- After such an insert, looking up the inserted key finds the new entry. -/
theorem lookupLive_insert_self (c : TTLCache) (t : Nat) (k v : String)
    (httl : 0 < c.ttl)
    (hc : c.containsKey t k = false)
    (hlen : (c.liveList t).length < c.maxsize) :
    (c.insert t k v).lookupLive t k = some (k, v, t + c.ttl) := by
  have hn := (contains_false_iff_lookup_none c t k).mp hc
  unfold TTLCache.lookupLive at hn ⊢
  rw [liveList_insert_not_present c t k v httl hc hlen, List.find?_append, hn, Option.none_or]
  simp

/-- After such an insert, lookups of other keys are unchanged. -/
theorem lookupLive_insert_ne (c : TTLCache) (t : Nat) (k v k2 : String)
    (httl : 0 < c.ttl)
    (hc : c.containsKey t k = false)
    (hlen : (c.liveList t).length < c.maxsize)
    (hne : k2 ≠ k) :
    (c.insert t k v).lookupLive t k2 = c.lookupLive t k2 := by
  unfold TTLCache.lookupLive
  rw [liveList_insert_not_present c t k v httl hc hlen, List.find?_append]
  have : (List.find? (fun e => e.1 == k2) [(k, v, t + c.ttl)]) = none := by
    simp [Ne.symm hne]
  rw [this, Option.or_none]

/-- Unfolding the pre-fetch loop on a cached head id. -/
theorem prefetchNames_cons_hit (oracle : String → Option TaskMeta) (t : Nat)
    (tid : String) (rest : List String) (c : TTLCache)
    (hc : c.containsKey t tid = true) :
    prefetchNames oracle t (tid :: rest) c = prefetchNames oracle t rest c := by
  simp [prefetchNames, hc]

/-- Unfolding the pre-fetch loop on a missing head id. -/
theorem prefetchNames_cons_miss (oracle : String → Option TaskMeta) (t : Nat)
    (tid : String) (rest : List String) (c : TTLCache)
    (hc : c.containsKey t tid = false) :
    prefetchNames oracle t (tid :: rest) c =
      ((prefetchNames oracle t rest (get_task_name oracle t c tid).cache).1,
       (get_task_name oracle t c tid).fetched ++
         (prefetchNames oracle t rest (get_task_name oracle t c tid).cache).2) := by
  simp [prefetchNames, hc]

/-- Behaviour of the pre-fetch loop over duplicate-free ids when the cache has
room for all of them (so no eviction can occur): the remote-fetch log is
exactly the ids missing from the cache, live keys keep their values, keys
outside the id list stay absent, and each processed id ends up reading back
its expected display name. -/
theorem prefetchNames_spec (oracle : String → Option TaskMeta) (t : Nat) :
    ∀ (ids : List String) (c : TTLCache),
      ids.Nodup → 0 < c.ttl →
      (c.liveList t).length + ids.length ≤ c.maxsize →
      (prefetchNames oracle t ids c).2 = ids.filter (fun tid => !(c.containsKey t tid)) ∧
      ((prefetchNames oracle t ids c).1.liveList t).length ≤ (c.liveList t).length + ids.length ∧
      (prefetchNames oracle t ids c).1.ttl = c.ttl ∧
      (prefetchNames oracle t ids c).1.maxsize = c.maxsize ∧
      (∀ k d, c.containsKey t k = true →
        (prefetchNames oracle t ids c).1.containsKey t k = true ∧
        (prefetchNames oracle t ids c).1.getD t k d = c.getD t k d) ∧
      (∀ k, k ∉ ids → c.containsKey t k = false →
        (prefetchNames oracle t ids c).1.containsKey t k = false) ∧
      (∀ k, k ∈ ids → (prefetchNames oracle t ids c).1.getD t k k = expectedName c t oracle k) := by
  intro ids
  induction ids with
  | nil =>
    intro c hnd httl hcap
    refine ⟨rfl, by simp [prefetchNames], rfl, rfl, ?_, ?_, ?_⟩
    · intro k d hk; exact ⟨hk, rfl⟩
    · intro k _ hk; exact hk
    · intro k hk; simp at hk
  | cons tid rest ih =>
    intro c hnd httl hcap
    rcases List.nodup_cons.mp hnd with ⟨htid_rest, hnd_rest⟩
    cases hc : c.containsKey t tid with
    | true =>
      have heq := prefetchNames_cons_hit oracle t tid rest c hc
      rw [heq]
      have hcap' : (c.liveList t).length + rest.length ≤ c.maxsize := by
        simp only [List.length_cons] at hcap; omega
      obtain ⟨ih1, ih2, ih3, ih4, ih5, ih6, ih7⟩ := ih c hnd_rest httl hcap'
      refine ⟨?_, ?_, ih3, ih4, ih5, ?_, ?_⟩
      · rw [ih1, List.filter_cons]
        simp [hc]
      · simp only [List.length_cons]; omega
      · intro k hk hck
        exact ih6 k (fun h => hk (List.mem_cons_of_mem _ h)) hck
      · intro k hk
        rcases List.mem_cons.mp hk with rfl | hk2
        · rw [(ih5 k k hc).2]
          exact (expectedName_of_contains c t oracle k hc).symm
        · exact ih7 k hk2
    | false =>
      cases ho : oracle tid with
      | some meta =>
        have hg := get_task_name_miss_ok oracle t c tid meta hc ho
        have heq := prefetchNames_cons_miss oracle t tid rest c hc
        rw [hg] at heq
        have h1eq : (prefetchNames oracle t (tid :: rest) c).2 =
            [tid] ++ (prefetchNames oracle t rest (c.insert t tid (resolveTaskName tid meta))).2 := by
          rw [heq]
        have h2eq : (prefetchNames oracle t (tid :: rest) c).1 =
            (prefetchNames oracle t rest (c.insert t tid (resolveTaskName tid meta))).1 := by
          rw [heq]
        have hlen : (c.liveList t).length < c.maxsize := by
          simp only [List.length_cons] at hcap; omega
        have hlive' : (c.insert t tid (resolveTaskName tid meta)).liveList t =
            c.liveList t ++ [(tid, resolveTaskName tid meta, t + c.ttl)] :=
          liveList_insert_not_present c t tid _ httl hc hlen
        have hlen' : ((c.insert t tid (resolveTaskName tid meta)).liveList t).length =
            (c.liveList t).length + 1 := by
          rw [hlive']; simp
        have hcap' : ((c.insert t tid (resolveTaskName tid meta)).liveList t).length + rest.length ≤
            (c.insert t tid (resolveTaskName tid meta)).maxsize := by
          rw [hlen']
          show (c.liveList t).length + 1 + rest.length ≤ c.maxsize
          simp only [List.length_cons] at hcap
          omega
        have hself : (c.insert t tid (resolveTaskName tid meta)).lookupLive t tid =
            some (tid, resolveTaskName tid meta, t + c.ttl) :=
          lookupLive_insert_self c t tid _ httl hc hlen
        have hcontains_self : (c.insert t tid (resolveTaskName tid meta)).containsKey t tid = true := by
          unfold TTLCache.containsKey; rw [hself]; rfl
        have hne_lookup : ∀ k, k ≠ tid →
            (c.insert t tid (resolveTaskName tid meta)).lookupLive t k = c.lookupLive t k :=
          fun k hk => lookupLive_insert_ne c t tid _ k httl hc hlen hk
        have hne_contains : ∀ k, k ≠ tid →
            (c.insert t tid (resolveTaskName tid meta)).containsKey t k = c.containsKey t k := by
          intro k hk; unfold TTLCache.containsKey; rw [hne_lookup k hk]
        have hne_getD : ∀ k d, k ≠ tid →
            (c.insert t tid (resolveTaskName tid meta)).getD t k d = c.getD t k d := by
          intro k d hk; unfold TTLCache.getD; rw [hne_lookup k hk]
        have hgetD_self : ∀ d, (c.insert t tid (resolveTaskName tid meta)).getD t tid d =
            resolveTaskName tid meta := by
          intro d; unfold TTLCache.getD; rw [hself]
        obtain ⟨ih1, ih2, ih3, ih4, ih5, ih6, ih7⟩ :=
          ih (c.insert t tid (resolveTaskName tid meta)) hnd_rest httl hcap'
        refine ⟨?_, ?_, by rw [h2eq]; exact ih3, by rw [h2eq]; exact ih4, ?_, ?_, ?_⟩
        · rw [h1eq, ih1, List.filter_cons]
          simp only [hc, Bool.not_false, if_true, List.singleton_append]
          congr 1
          apply List.filter_congr
          intro x hx
          have hxne : x ≠ tid := fun h => htid_rest (h ▸ hx)
          rw [hne_contains x hxne]
        · rw [h2eq]
          rw [hlen'] at ih2
          simp only [List.length_cons]
          omega
        · intro k d hk
          have hkne : k ≠ tid := by
            rintro rfl
            rw [hc] at hk
            simp at hk
          have h5 := ih5 k d (by rw [hne_contains k hkne]; exact hk)
          rw [h2eq]
          exact ⟨h5.1, h5.2.trans (hne_getD k d hkne)⟩
        · intro k hk hck
          have hkne : k ≠ tid := fun h => hk (h ▸ List.mem_cons_self tid rest)
          have hknr : k ∉ rest := fun h => hk (List.mem_cons_of_mem _ h)
          rw [h2eq]
          exact ih6 k hknr (by rw [hne_contains k hkne]; exact hck)
        · intro k hk
          rw [h2eq]
          rcases List.mem_cons.mp hk with rfl | hk2
          · rw [(ih5 k k hcontains_self).2, hgetD_self]
            simp [expectedName, lookup_none_of_contains_false c t k hc, ho]
          · rw [ih7 k hk2]
            have hkne : k ≠ tid := fun h => htid_rest (h ▸ hk2)
            simp [expectedName, hne_lookup k hkne]
      | none =>
        have hg := get_task_name_miss_fail oracle t c tid hc ho
        have heq := prefetchNames_cons_miss oracle t tid rest c hc
        rw [hg] at heq
        have h1eq : (prefetchNames oracle t (tid :: rest) c).2 =
            [tid] ++ (prefetchNames oracle t rest c).2 := by rw [heq]
        have h2eq : (prefetchNames oracle t (tid :: rest) c).1 =
            (prefetchNames oracle t rest c).1 := by rw [heq]
        have hcap' : (c.liveList t).length + rest.length ≤ c.maxsize := by
          simp only [List.length_cons] at hcap; omega
        obtain ⟨ih1, ih2, ih3, ih4, ih5, ih6, ih7⟩ := ih c hnd_rest httl hcap'
        refine ⟨?_, ?_, ?_, ?_, ?_, ?_, ?_⟩
        · rw [h1eq, ih1, List.filter_cons]
          simp [hc]
        · rw [h2eq]
          simp only [List.length_cons]
          omega
        · rw [h2eq]; exact ih3
        · rw [h2eq]; exact ih4
        · intro k d hk
          rw [h2eq]
          exact ih5 k d hk
        · intro k hk hck
          rw [h2eq]
          exact ih6 k (fun h => hk (List.mem_cons_of_mem _ h)) hck
        · intro k hk
          rw [h2eq]
          rcases List.mem_cons.mp hk with rfl | hk2
          · have h6 := ih6 k htid_rest hc
            rw [getD_of_not_contains _ t k k h6]
            simp [expectedName, lookup_none_of_contains_false c t k hc, ho]
          · exact ih7 k hk2

/-- A task id referenced by a non-root child with a truthy `taskId` is among
the unique pre-fetch ids. -/
theorem mem_unique_task_ids (data : List RawRun) (root : String) (st : RawRun) (tid : String)
    (hst : st ∈ data) (hid : (st.id == some root) = false)
    (htid : st.taskId = some tid) (hne : tid ≠ "") :
    tid ∈ unique_task_ids data root := by
  unfold unique_task_ids
  rw [mem_dedupFirst]
  apply List.mem_filterMap.mpr
  refine ⟨st, hst, ?_⟩
  simp [hid, htid, hne]

/-- `fetch_spawned_tasks` on a usable key and a successful listing. -/
theorem fetch_spawned_tasks_some (oracle : String → Option TaskMeta) (t : Nat)
    (key : String) (data : List RawRun) (cache : TTLCache) (root : String)
    (hk : key ≠ "") :
    fetch_spawned_tasks oracle t (some key) (some data) cache root =
      ⟨buildRelated (prefetchNames oracle t (unique_task_ids data root) cache).1 t root data,
       (prefetchNames oracle t (unique_task_ids data root) cache).1,
       (prefetchNames oracle t (unique_task_ids data root) cache).2⟩ := by
  have hkb : (key == "") = false := by simpa using hk
  simp [fetch_spawned_tasks, hkb]

/-- On a cache miss one remote request is issued, whatever its outcome. -/
theorem get_task_name_fetched_of_miss (oracle : String → Option TaskMeta) (t : Nat)
    (c : TTLCache) (tid : String) (hc : c.containsKey t tid = false) :
    (get_task_name oracle t c tid).fetched = [tid] := by
  cases ho : oracle tid with
  | some meta => rw [get_task_name_miss_ok oracle t c tid meta hc ho]
  | none => rw [get_task_name_miss_fail oracle t c tid hc ho]

/-- Every entry of an inserted cache is the freshly linked one or was live
before the insert (expiry and eviction only remove entries). -/
theorem insert_entry_cases (c : TTLCache) (t : Nat) (k v : String) :
    ∀ x ∈ (c.insert t k v).entries, x = (k, v, t + c.ttl) ∨ x ∈ c.liveList t := by
  intro x hx
  unfold TTLCache.insert at hx
  rcases List.mem_append.mp hx with h | h
  · right
    split at h
    · exact (List.mem_filter.mp h).1
    · unfold TTLCache.evictLRU at h
      exact List.mem_of_mem_drop h
  · left; simpa using h

/-- Inserting one key can never make a different absent key present: this
holds with no capacity or ttl assumption, since expiry and eviction only
remove entries and the new link carries the inserted key. -/
theorem contains_false_insert_other (c : TTLCache) (t : Nat) (k v k2 : String)
    (hne : k2 ≠ k) (h : c.containsKey t k2 = false) :
    (c.insert t k v).containsKey t k2 = false := by
  have hnone := lookup_none_of_contains_false c t k2 h
  unfold TTLCache.lookupLive at hnone
  have hall := List.find?_eq_none.mp hnone
  suffices hs : (c.insert t k v).lookupLive t k2 = none by
    unfold TTLCache.containsKey
    rw [hs]
    rfl
  unfold TTLCache.lookupLive
  rw [List.find?_eq_none]
  intro x hx
  unfold TTLCache.liveList at hx
  rcases List.mem_filter.mp hx with ⟨hmem, _⟩
  rcases insert_entry_cases c t k v x hmem with rfl | hmem2
  · intro hk
    exact hne (eq_of_beq hk).symm
  · exact hall x hmem2

/-- The remote-fetch log of the pre-fetch loop is a sublist of the visited
ids: each loop iteration issues at most one request, for its own id.  This
needs no assumption on the cache — it holds through evictions too. -/
theorem prefetchNames_fetched_sublist (oracle : String → Option TaskMeta) (t : Nat) :
    ∀ (ids : List String) (c : TTLCache), (prefetchNames oracle t ids c).2.Sublist ids := by
  intro ids
  induction ids with
  | nil => intro c; exact List.Sublist.refl _
  | cons tid rest ih =>
    intro c
    cases hc : c.containsKey t tid with
    | true =>
      rw [prefetchNames_cons_hit oracle t tid rest c hc]
      exact (ih c).cons tid
    | false =>
      rw [prefetchNames_cons_miss oracle t tid rest c hc]
      show List.Sublist ((get_task_name oracle t c tid).fetched ++
          (prefetchNames oracle t rest (get_task_name oracle t c tid).cache).2) (tid :: rest)
      rw [get_task_name_fetched_of_miss oracle t c tid hc]
      exact (ih _).cons₂ tid

/-- An id that is absent when the pre-fetch loop starts is fetched remotely:
intermediate inserts are for other (distinct) ids and can only remove
entries for this id, never add one, so its own check still misses.  This too
holds with no capacity assumption. -/
theorem prefetchNames_mem_fetched (oracle : String → Option TaskMeta) (t : Nat) :
    ∀ (ids : List String) (c : TTLCache) (tid : String), ids.Nodup → tid ∈ ids →
      c.containsKey t tid = false → tid ∈ (prefetchNames oracle t ids c).2 := by
  intro ids
  induction ids with
  | nil => intro c tid _ hmem _; simp at hmem
  | cons x rest ih =>
    intro c tid hnd hmem hc
    rcases List.nodup_cons.mp hnd with ⟨hx_rest, hnd_rest⟩
    rcases List.mem_cons.mp hmem with rfl | hmem2
    · rw [prefetchNames_cons_miss oracle t tid rest c hc]
      show tid ∈ (get_task_name oracle t c tid).fetched ++
          (prefetchNames oracle t rest (get_task_name oracle t c tid).cache).2
      rw [get_task_name_fetched_of_miss oracle t c tid hc]
      exact List.mem_append.mpr (Or.inl (List.mem_singleton.mpr rfl))
    · have htidne : tid ≠ x := fun h => hx_rest (h ▸ hmem2)
      cases hcx : c.containsKey t x with
      | true =>
        rw [prefetchNames_cons_hit oracle t x rest c hcx]
        exact ih c tid hnd_rest hmem2 hc
      | false =>
        rw [prefetchNames_cons_miss oracle t x rest c hcx]
        show tid ∈ (get_task_name oracle t c x).fetched ++
            (prefetchNames oracle t rest (get_task_name oracle t c x).cache).2
        apply List.mem_append.mpr
        right
        apply ih _ tid hnd_rest hmem2
        cases ho : oracle x with
        | some meta =>
          rw [get_task_name_miss_ok oracle t c x meta hcx ho]
          exact contains_false_insert_other c t x _ tid htidne hc
        | none =>
          rw [get_task_name_miss_fail oracle t c x hcx ho]
          exact hc

/-! ## Claim C4 -/

/-- Claim C4 (amended): within one aggregation each distinct task-definition
identifier referenced by the children is looked up remotely at most once — a
never-seen identifier triggers exactly one remote lookup, children sharing
one identifier trigger at most that single lookup and always display the same
name (all of this unconditionally, even at full cache capacity); and,
provided the cache has room for all referenced identifiers (so no LRU
eviction occurs during the aggregation), an identifier already live in the
cache triggers zero remote lookups and every child displays the correctly
resolved name. -/
theorem C4_amended_dedup_prefetch (oracle : String → Option TaskMeta) (t : Nat)
    (key : String) (data : List RawRun) (cache : TTLCache) (root : String)
    (hk : key ≠ "") :
    (∀ tid, (fetch_spawned_tasks oracle t (some key) (some data) cache root).fetched.count tid ≤ 1) ∧
    (∀ tid, tid ∈ unique_task_ids data root → cache.containsKey t tid = false →
      (fetch_spawned_tasks oracle t (some key) (some data) cache root).fetched.count tid = 1) ∧
    (∀ st1 ∈ data, ∀ st2 ∈ data, ∀ tid, st1.taskId = some tid → st2.taskId = some tid →
      (summarize (fetch_spawned_tasks oracle t (some key) (some data) cache root).cache t st1).task_id =
        (summarize (fetch_spawned_tasks oracle t (some key) (some data) cache root).cache t st2).task_id) ∧
    (0 < cache.ttl →
     (cache.liveList t).length + (unique_task_ids data root).length ≤ cache.maxsize →
     (∀ tid, cache.containsKey t tid = true →
       (fetch_spawned_tasks oracle t (some key) (some data) cache root).fetched.count tid = 0) ∧
     (∀ st ∈ data, (st.id == some root) = false → ∀ tid, st.taskId = some tid → tid ≠ "" →
       (summarize (fetch_spawned_tasks oracle t (some key) (some data) cache root).cache t st).task_id =
         expectedName cache t oracle tid)) := by
  have hfe := fetch_spawned_tasks_some oracle t key data cache root hk
  have hfetched : (fetch_spawned_tasks oracle t (some key) (some data) cache root).fetched =
      (prefetchNames oracle t (unique_task_ids data root) cache).2 := by rw [hfe]
  have hcache : (fetch_spawned_tasks oracle t (some key) (some data) cache root).cache =
      (prefetchNames oracle t (unique_task_ids data root) cache).1 := by rw [hfe]
  have hnd : (unique_task_ids data root).Nodup := dedupFirst_nodup _
  have hco : ∀ tid,
      (fetch_spawned_tasks oracle t (some key) (some data) cache root).fetched.count tid ≤ 1 := by
    intro tid
    rw [hfetched]
    exact le_trans ((prefetchNames_fetched_sublist oracle t _ cache).count_le tid)
      (List.nodup_iff_count_le_one.mp hnd tid)
  refine ⟨hco, ?_, ?_, ?_⟩
  · intro tid hmem hc
    have h1 : tid ∈ (prefetchNames oracle t (unique_task_ids data root) cache).2 :=
      prefetchNames_mem_fetched oracle t _ cache tid hnd hmem hc
    have h2 := hco tid
    rw [hfetched] at h2 ⊢
    have h3 := List.count_pos_iff.mpr h1
    omega
  · intro st1 _hst1 st2 _hst2 tid h1 h2
    show (fetch_spawned_tasks oracle t (some key) (some data) cache root).cache.getD t
        (st1.taskId.getD "") (st1.taskId.getD "") =
      (fetch_spawned_tasks oracle t (some key) (some data) cache root).cache.getD t
        (st2.taskId.getD "") (st2.taskId.getD "")
    rw [h1, h2]
  · intro httl hcap
    obtain ⟨p1, _p2, _p3, _p4, _p5, _p6, p7⟩ :=
      prefetchNames_spec oracle t (unique_task_ids data root) cache hnd httl hcap
    constructor
    · intro tid hct
      rw [hfetched, p1, List.count_eq_zero]
      intro hmem
      rcases List.mem_filter.mp hmem with ⟨_, hb⟩
      rw [hct] at hb
      simp at hb
    · intro st hst hid tid htid htne
      have hmem : tid ∈ unique_task_ids data root :=
        mem_unique_task_ids data root st tid hst hid htid htne
      rw [hcache]
      show (prefetchNames oracle t (unique_task_ids data root) cache).1.getD t
          (st.taskId.getD "") (st.taskId.getD "") = expectedName cache t oracle tid
      rw [htid]
      exact p7 tid hmem

/-- Claim C4 counterexample: with the cache at its full 1000-entry capacity,
the identifier "0" is live in the cache when the aggregation starts, yet it is
looked up remotely once: resolving the never-seen identifier "x" first evicts
the least-recently-used entry "0", so the pre-fetch check for "0" then
misses. -/
theorem C4_counterexample :
    cacheBig.containsKey 0 "0" = true ∧
    (fetch_spawned_tasks oracleCE 0 (some "key") (some dataCE) cacheBig "root").fetched.count "0" = 1 := by
  constructor
  · decide
  · decide

/-- Claim C4 amended witness: the unconditional clauses applied to the full
`cacheBig` aggregation of the counterexample (at-most-once and the exactly-one
lookup of the never-seen id "x"), and the conditional clause applied to an
aggregation over the empty cache, which has room for the two referenced
ids. -/
theorem C4_amended_dedup_prefetch_witness :
    ("key" : String) ≠ "" ∧
    (∀ tid, (fetch_spawned_tasks oracleCE 0 (some "key") (some dataCE) cacheBig "root").fetched.count tid ≤ 1) ∧
    ("x" ∈ unique_task_ids dataCE "root" ∧ cacheBig.containsKey 0 "x" = false ∧
      (fetch_spawned_tasks oracleCE 0 (some "key") (some dataCE) cacheBig "root").fetched.count "x" = 1) ∧
    (0 < task_name_cache_init.ttl ∧
     (task_name_cache_init.liveList 0).length + (unique_task_ids dataCE "root").length ≤
       task_name_cache_init.maxsize ∧
     (∀ tid, task_name_cache_init.containsKey 0 tid = true →
       (fetch_spawned_tasks oracleCE 0 (some "key") (some dataCE) task_name_cache_init "root").fetched.count tid = 0)) :=
  ⟨by decide,
   (C4_amended_dedup_prefetch oracleCE 0 "key" dataCE cacheBig "root" (by decide)).1,
   ⟨by decide, by decide,
    (C4_amended_dedup_prefetch oracleCE 0 "key" dataCE cacheBig "root" (by decide)).2.1
      "x" (by decide) (by decide)⟩,
   ⟨by decide, by decide,
    ((C4_amended_dedup_prefetch oracleCE 0 "key" dataCE task_name_cache_init "root"
      (by decide)).2.2.2 (by decide) (by decide)).1⟩⟩
